import Mathlib

/-
Verification development for the beefjs flux store
(src/packages/beef-flux-store/src/base-store.ts).

The TypeScript source is shallowly embedded: JavaScript runtime values are
the inductive type JSVal, stateful methods of the Store class become pure
functions threading an explicit StoreState record, and code that can throw
returns Except JSError.  External library helpers used by the source
(lodash assign, cloneDeepWith, merge; moment) are modelled on the value
fragment the store actually passes to them, with comments at each site.
-/

namespace BeefStore

/-- JavaScript runtime values, restricted to the shapes the store
manipulates.  Numbers are modelled as integers (no claim depends on
fractional arithmetic); moment instances and Date instances are kept as
distinct constructors carrying their timestamp so that the clone logic can
be stated.  Function values carry an identity tag standing for their
reference. -/
inductive JSVal where
  | vundefined
  | vnull
  | vbool (b : Bool)
  | vnum (n : Int)
  | vnan
  | vstr (s : String)
  | varr (elems : List JSVal)
  | vobj (fields : List (String × JSVal))
  | vdate (t : Int)
  | vmoment (t : Int)
  | vfunc (id : Nat)

/-- Errors a method can raise: a TypeError from accessing a property of
null/undefined, or an explicitly thrown Error with its message. -/
inductive JSError where
  | typeError
  | thrown (msg : String)

/-- The JavaScript typeof operator on the modelled values.  Note that
typeof null is the string object, which the source code relies on. -/
def typeOf : JSVal → String
  | .vundefined => "undefined"
  | .vnull => "object"
  | .vbool _ => "boolean"
  | .vnum _ => "number"
  | .vnan => "number"
  | .vstr _ => "string"
  | .vfunc _ => "function"
  | _ => "object"

/-- JavaScript truthiness of the modelled values. -/
def truthy : JSVal → Bool
  | .vundefined => false
  | .vnull => false
  | .vbool b => b
  | .vnum n => n != 0
  | .vnan => false
  | .vstr s => !s.isEmpty
  | _ => true

/-- Property read v[k].  Reading a property of null or undefined throws a
TypeError; a missing key on an object yields undefined; primitives yield
undefined for the string keys the store uses. -/
def getProp (v : JSVal) (k : String) : Except JSError JSVal :=
  match v with
  | .vundefined => .error .typeError
  | .vnull => .error .typeError
  | .vobj fs => .ok ((fs.lookup k).getD .vundefined)
  | _ => .ok .vundefined

/-- Own enumerable keys, as iterated by a for-in loop (insertion order for
plain objects; primitives and null iterate nothing). -/
def objKeys : JSVal → List String
  | .vobj fs => fs.map Prod.fst
  | _ => []

/-- Total property read for values already known to be plain objects. -/
def objGet (v : JSVal) (k : String) : JSVal :=
  match v with
  | .vobj fs => (fs.lookup k).getD .vundefined
  | _ => .vundefined

/-- Update or insert a key in an association list, preserving the position
of an existing key, as JS property assignment does. -/
def setField (fs : List (String × JSVal)) (k : String) (x : JSVal) :
    List (String × JSVal) :=
  match fs with
  | [] => [(k, x)]
  | (k0, v0) :: rest =>
      if k0 = k then (k, x) :: rest else (k0, v0) :: setField rest k x

/-- Property write v[k] = x.  On non-objects the write is lost (primitives)
or not modelled (arrays never receive the string keys written here). -/
def objSet (v : JSVal) (k : String) (x : JSVal) : JSVal :=
  match v with
  | .vobj fs => .vobj (setField fs k x)
  | _ => v

/-- Array.isArray. -/
def isArray : JSVal → Bool
  | .varr _ => true
  | _ => false

/-- Is the value the null literal. -/
def isNull : JSVal → Bool
  | .vnull => true
  | _ => false

/-- JavaScript strict equality on the primitive values the store compares
(identity keys and sentinels).  Two structured values compare by reference
in JS; distinct structured operands are modelled as unequal, which is
accurate for all comparisons the claims exercise (primitive keys). -/
def strictEq : JSVal → JSVal → Bool
  | .vundefined, .vundefined => true
  | .vnull, .vnull => true
  | .vbool a, .vbool b => a == b
  | .vnum a, .vnum b => a == b
  | .vstr a, .vstr b => a == b
  | .vfunc a, .vfunc b => a == b
  | _, _ => false

/-- lodash assign(\x7b\x7d, src): shallow copy of an object onto a fresh
object.  The store only ever passes its state object (or the initial null)
here; assign with a null or primitive source leaves the target empty. -/
def shallowCopy : JSVal → JSVal
  | .vobj fs => .vobj fs
  | _ => .vobj []

mutual
/-- lodash cloneDeepWith(state, customizer) as called by cloneState in the
source: a structural deep clone whose customizer short-circuits moment
instances (cloned via .clone()) and Date instances (rebuilt from getTime()),
so both stay instances of their temporal type. -/
def cloneVal : JSVal → JSVal
  | .vmoment t => .vmoment t
  | .vdate t => .vdate t
  | .varr es => .varr (cloneList es)
  | .vobj fs => .vobj (cloneFields fs)
  | v => v

def cloneList : List JSVal → List JSVal
  | [] => []
  | v :: vs => cloneVal v :: cloneList vs

def cloneFields : List (String × JSVal) → List (String × JSVal)
  | [] => []
  | (k, v) :: fs => (k, cloneVal v) :: cloneFields fs
end

/-- One call a listener callback makes back into its store while being
notified.  The only re-entrant call the claims exercise is stateChange. -/
inductive ListenerAct where
  | change (actionName : String) (next : JSVal)

/-- A registered listener callback: an identity tag standing for the
function reference, plus the sequence of store calls the callback performs
when invoked. -/
structure Listener where
  id : Nat
  acts : List ListenerAct

/-- The mutable fields of a Store instance, plus two observation logs:
queueCalls counts StoreManager.queueFlush requests issued by this store,
and notifications records each (newState, oldState) pair a listener was
invoked with. -/
structure StoreState where
  state : JSVal := .vnull
  nextSt : JSVal := .vnull
  dirtyState : Bool := false
  pendingActions : List String := []
  stateHistory : List (String × JSVal) := []
  listeners : List Listener := []
  debug : Bool := false
  uuid : String := ""
  queueCalls : Nat := 0
  notifications : List (JSVal × JSVal) := []
  dispatches : List (String × JSVal) := []

/-- Store.ACTION_SEED. -/
def ACTION_SEED : String := "__STORE_STATE_SEED__"

/-- Store.prototype.stateChange: record the action name, set the pending
draft, and only on the not-dirty to dirty transition ask StoreManager to
queue a flush (modelled by bumping queueCalls). -/
def stateChange (actionName : String) (next : JSVal) (st : StoreState) :
    StoreState :=
  let st := { st with
    pendingActions := st.pendingActions ++ [actionName]
    nextSt := next }
  if !st.dirtyState then
    { st with dirtyState := true, queueCalls := st.queueCalls + 1 }
  else
    st

/-- Run the store calls a listener callback makes during notification. -/
def runActs (acts : List ListenerAct) (st : StoreState) : StoreState :=
  acts.foldl (fun s a => match a with | .change n v => stateChange n v s) st

/-- Store.prototype.notify: invoke every listener in registration order
with (this.state, oldState) — logged in notifications — then clear the
dirty flag. -/
def notify (oldState : JSVal) (st : StoreState) : StoreState :=
  let st := st.listeners.foldl
    (fun s l =>
      runActs l.acts
        { s with notifications := s.notifications ++ [(s.state, oldState)] })
    st
  { st with dirtyState := false }

/-- Store.prototype.flush: shallow-copy the committed state into oldState,
promote the draft, append a history entry when debugging (joining every
pending action name), and notify.  Note the source never resets
pendingActions. -/
def flush (st : StoreState) : StoreState :=
  let oldState := shallowCopy st.state
  let st := { st with state := st.nextSt, nextSt := .vnull }
  let st :=
    if st.debug then
      { st with stateHistory :=
          st.stateHistory ++
            [(String.intercalate "," st.pendingActions, oldState)] }
    else st
  notify oldState st

/-- Store.prototype.cloneState. -/
def cloneState (st : StoreState) : JSVal :=
  cloneVal st.state

/-- Store.prototype.nextState: return the existing draft when it is truthy,
otherwise clone the committed state, record it as the draft, and return
it. -/
def nextState (st : StoreState) : JSVal × StoreState :=
  if truthy st.nextSt then
    (st.nextSt, st)
  else
    let c := cloneState st
    (c, { st with nextSt := c })

/-- Store.prototype.listen: push the callback and return the new length of
the listener list, which is the handle. -/
def listen (cb : Listener) (st : StoreState) : Nat × StoreState :=
  (st.listeners.length + 1, { st with listeners := st.listeners ++ [cb] })

/-- Array.prototype.indexOf on the listener list; function identity is
modelled by the listener id tag.  Returns -1 when absent. -/
def jsIndexOf (l : List Listener) (cb : Listener) : Int :=
  match l with
  | [] => -1
  | y :: ys =>
      if y.id = cb.id then 0
      else
        let r := jsIndexOf ys cb
        if r < 0 then -1 else r + 1

/-- Array.prototype.splice(i, 1): remove the element at index i in place;
out-of-range indices remove nothing. -/
def spliceOne (l : List Listener) (i : Nat) : List Listener :=
  l.take i ++ l.drop (i + 1)

/-- Argument accepted by Store.prototype.ignore: a callback reference or a
numeric handle. -/
inductive CbOrHandle where
  | cb (c : Listener)
  | handle (n : Int)

/-- Store.prototype.ignore: resolve an index (indexOf for a callback,
handle - 1 for a handle), splice it out when the index is non-negative, and
return whether that branch was taken. -/
def ignore (arg : CbOrHandle) (st : StoreState) : Bool × StoreState :=
  let index : Int :=
    match arg with
    | .cb c => jsIndexOf st.listeners c
    | .handle n => n - 1
  if index ≥ 0 then
    (true, { st with listeners := spliceOne st.listeners index.toNat })
  else
    (false, st)

/-- Concatenation of the array branch in seed: value.concat(newValue). -/
def arrConcat : JSVal → JSVal → JSVal
  | .varr a, .varr b => .varr (a ++ b)
  | a, _ => a

/-- The for-in loop body of Store.prototype.seed over the draft keys.
Returns the draft as mutated so far plus whether the loop ran to completion
(the early return fires when the payload lacks one of the draft keys, and
reading a key of a null payload state throws). -/
def seedLoop (pstate : JSVal) : List String → JSVal →
    Except JSError (JSVal × Bool)
  | [], draft => .ok (draft, true)
  | k :: ks, draft => do
      let value := objGet draft k
      let newValue ← getProp pstate k
      if typeOf newValue = "undefined" then
        .ok (draft, false)
      else if isArray value && isArray newValue then
        seedLoop pstate ks (objSet draft k (arrConcat value newValue))
      else if typeOf value = "undefined" then
        seedLoop pstate ks (objSet draft k newValue)
      else
        seedLoop pstate ks draft

/-- Store.prototype.seed: reject (console.warn, no throw) a payload whose
typeof is not object or whose state member has typeof not object — but note
typeof null is object, so a null payload throws on reading .state.  On a
well-shaped payload, merge into the draft key by key; if the loop runs to
completion, dispatch the merged draft on the action bus (logged in
dispatches) under the seed action name. -/
def seed (payload : JSVal) (st : StoreState) : Except JSError StoreState :=
  if typeOf payload ≠ "object" then
    .ok st
  else do
    let pstate ← getProp payload "state"
    if typeOf pstate ≠ "object" then
      .ok st
    else
      let (draft, st) := nextState st
      let r ← seedLoop pstate (objKeys draft) draft
      let st := { st with nextSt := r.1 }
      if r.2 then
        .ok { st with dispatches :=
          st.dispatches ++ [(ACTION_SEED ++ "_" ++ st.uuid, r.1)] }
      else
        .ok st

mutual
/-- lodash merge(obj1, obj2) as used by Store.prototype.merge: deep merge
of the second argument onto the first.  Undefined source values are
skipped; two plain objects or two arrays merge recursively (arrays
index-wise); otherwise the source value wins. -/
def jsMerge : JSVal → JSVal → JSVal
  | .vobj fs1, .vobj fs2 => .vobj (mergeFields fs1 fs2)
  | .varr a, .varr b => .varr (mergeArrays a b)
  | dst, src => if typeOf src = "undefined" then dst else src

def mergeFields (fs1 : List (String × JSVal)) :
    List (String × JSVal) → List (String × JSVal)
  | [] => fs1
  | (k, v2) :: rest =>
      if typeOf v2 = "undefined" then mergeFields fs1 rest
      else
        match fs1.lookup k with
        | some v1 => mergeFields (setField fs1 k (jsMerge v1 v2)) rest
        | none => mergeFields (fs1 ++ [(k, v2)]) rest

def mergeArrays : List JSVal → List JSVal → List JSVal
  | as, [] => as
  | [], b :: bs => b :: mergeArrays [] bs
  | a :: as, b :: bs => jsMerge a b :: mergeArrays as bs
end

/-- The scan in upsertItem, getItem and removeItem: index of the first
element whose hidden identity key strictly equals keyValue.  Reading the
key of a null element throws, as property access on null does. -/
def findBID (arr : List JSVal) (keyValue : JSVal) :
    Except JSError (Option Nat) :=
  match arr with
  | [] => .ok none
  | item :: rest => do
      let bid ← getProp item "__bID"
      if strictEq bid keyValue then
        .ok (some 0)
      else do
        let r ← findBID rest keyValue
        .ok (r.map (· + 1))

/-- The element list of an array value; the empty list for anything else,
as the non-array coercion in upsertItem produces. -/
def toElems : JSVal → List JSVal
  | .varr es => es
  | _ => []

/-- Store.prototype.upsertItem.  Result is the returned boolean paired with
the caller-visible final value of the modelArray argument: when a non-array
is passed, the source rebinds its local variable to a fresh empty array
(console.warn) so the caller value is untouched, yet execution continues
and eventually returns true. -/
def upsertItem (modelArray : JSVal) (keyValue : JSVal) (newItem : JSVal)
    (overwrite : Bool) : Except JSError (Bool × JSVal) :=
  let isArr := isArray modelArray
  let arr : List JSVal := toElems modelArray
  if typeOf newItem ≠ "object" then
    .ok (false, modelArray)
  else do
    let bid ← getProp newItem "__bID"
    if typeOf bid ≠ "undefined" && !strictEq bid keyValue then
      .ok (false, modelArray)
    else do
      let existing ← findBID arr keyValue
      match existing with
      | none =>
          let stamped := objSet newItem "__bID" keyValue
          let arr2 := arr ++ [stamped]
          .ok (true, if isArr then .varr arr2 else modelArray)
      | some i =>
          let existingItem := arr.getD i .vundefined
          let replaced :=
            if overwrite then newItem else jsMerge existingItem newItem
          let replaced := objSet replaced "__bID" keyValue
          let arr2 := arr.set i replaced
          .ok (true, if isArr then .varr arr2 else modelArray)

/-- Leading decimal digits of a character sequence, accumulated as a
number; none when the sequence starts with no digit (parseInt NaN). -/
def parseLeadingDigits : List Char → Option Nat → Option Nat
  | [], acc => acc
  | c :: cs, acc =>
      if c.isDigit then
        parseLeadingDigits cs (some ((acc.getD 0) * 10 + (c.toNat - 48)))
      else acc

/-- Leading whitespace skipped by parseInt (space characters suffice for
the modelled inputs). -/
def skipSpaces : List Char → List Char
  | [] => []
  | c :: cs => if c = ' ' then skipSpaces cs else c :: cs

/-- JavaScript parseInt applied after string coercion, on the values the
sanitizer feeds it: numbers parse to themselves, strings parse optional
whitespace, an optional sign and leading decimal digits (none of which
means NaN), every other modelled value is NaN.  none stands for NaN. -/
def parseIntJS : JSVal → Option Int
  | .vnum n => some n
  | .vstr s =>
      match skipSpaces s.data with
      | '-' :: cs => (parseLeadingDigits cs none).map (fun n => -(n : Int))
      | '+' :: cs => (parseLeadingDigits cs none).map (fun n => (n : Int))
      | cs => (parseLeadingDigits cs none).map (fun n => (n : Int))
  | _ => none

/-- Optional min and max bounds read from a schema descriptor by the
numeric sanitizers. -/
structure NumConfig where
  min : Option Int := none
  max : Option Int := none

/-- The comparison value < schemaConfig.min with an unset bound undefined
and NaN as none: both make the JavaScript comparison false. -/
def belowBound (v : Option Int) (bound : Option Int) : Bool :=
  match v, bound with
  | some n, some b => n < b
  | _, _ => false

/-- The comparison value > schemaConfig.max, same conventions. -/
def aboveBound (v : Option Int) (bound : Option Int) : Bool :=
  match v, bound with
  | some n, some b => b < n
  | _, _ => false

/-- The part of sanitizeInteger after the string strip: its value argument
is the parseInt result, none meaning NaN.  NaN skips both bound checks
(NaN comparisons are false) and then yields the empty-string sentinel. -/
def sanitizeIntegerNum (value : Option Int) (cfg : NumConfig) :
    Except JSError JSVal :=
  if belowBound value cfg.min then
    .error (.thrown "Provided value cannot be sanitized, value is below minimum integer allowed")
  else if aboveBound value cfg.max then
    .error (.thrown "Provided value cannot be sanitized, value is greater than maximum integer allowed")
  else
    match value with
    | none => .ok (.vstr "")
    | some n => .ok (.vnum n)

/-- Store.prototype.sanitizeInteger: strip ASCII letters from a string
input (returning the empty-string sentinel when nothing is left), coerce
with parseInt, throw when below min or above max, return the empty-string
sentinel when the coercion produced NaN, else the number. -/
def sanitizeInteger (value : JSVal) (cfg : NumConfig) :
    Except JSError JSVal :=
  match value with
  | .vstr s =>
      let stripped := s.data.filter (fun c => !c.isAlpha)
      if stripped.isEmpty then .ok (.vstr "")
      else sanitizeIntegerNum (parseIntJS (.vstr (String.mk stripped))) cfg
  | v => sanitizeIntegerNum (parseIntJS v) cfg

/-- A value stored under a key of a schema field's validation object: a
boolean or numeric parameter, or a predicate function.  A predicate
returns true (modelled none) or a list of error messages. -/
inductive VParam where
  | pbool (b : Bool)
  | pnum (n : Nat)
  | pfun (f : JSVal → Option (List String))

/-- JavaScript truthiness of a validation parameter. -/
def truthyParam : VParam → Bool
  | .pbool b => b
  | .pnum n => n != 0
  | .pfun _ => true

/-- A schema field descriptor as consumed by validate: its type tag, an
optional label, the validation object (an ordered list of rule name and
parameter, absent when typeof validation is undefined), and the nested
schema factory for object fields (absent when no schema key: calling it
then throws). -/
inductive VField where
  | mk (ftype : String) (label : Option String)
       (validation : Option (List (String × VParam)))
       (sub : Option (List (String × VField)))

/-- The comparison value.length < n: length of strings and arrays; other
objects and numbers read an undefined length property, and any comparison
with undefined is false; reading length of null or undefined throws. -/
def lengthLt (v : JSVal) (n : Nat) : Except JSError Bool :=
  match v with
  | .vundefined => .error .typeError
  | .vnull => .error .typeError
  | .vstr s => .ok (decide (s.length < n))
  | .varr es => .ok (decide (es.length < n))
  | _ => .ok false

/-- The comparison value.length > n, same conventions. -/
def lengthGt (v : JSVal) (n : Nat) : Except JSError Bool :=
  match v with
  | .vundefined => .error .typeError
  | .vnull => .error .typeError
  | .vstr s => .ok (decide (n < s.length))
  | .varr es => .ok (decide (n < es.length))
  | _ => .ok false

/-- The required check of validate: undefined, null or the empty string. -/
def failsRequired (v : JSVal) : Bool :=
  match v with
  | .vundefined => true
  | .vnull => true
  | .vstr s => s.isEmpty
  | _ => false

/-- The switch statement at the bottom of the validate rules loop: the
required, minLength and maxLength cases push one message each, and the
default case applies a predicate parameter and concatenates whatever it
returned other than true. -/
def validateSwitch (value : JSVal) (field : String) (lbl : Option String)
    (errors : List String) (vname : String) (vparam : VParam) :
    Except JSError (List String) :=
  let label := lbl.getD field
  if vname = "required" then
    .ok (if failsRequired value then
      errors ++ [label ++ " is required"] else errors)
  else if vname = "minLength" then
    match vparam with
    | .pnum n => do
        let b ← lengthLt value n
        .ok (if b then
          errors ++
            [label ++ " must be at least " ++ toString n ++ " characters"]
          else errors)
    | _ => .ok errors
  else if vname = "maxLength" then
    match vparam with
    | .pnum n => do
        let b ← lengthGt value n
        .ok (if b then
          errors ++
            [label ++ " must be at under " ++ toString n ++ " characters"]
          else errors)
    | _ => .ok errors
  else
    match vparam with
    | .pfun f =>
        .ok (match f value with
          | none => errors
          | some results => errors ++ results)
    | _ => .ok errors

mutual
/-- The outer for-in loop of Store.prototype.validate over the schema
fields, threading the single accumulated error list. -/
def validateFields (obj : JSVal) (schema : List (String × VField))
    (errors : List String) : Except JSError (List String) :=
  match schema with
  | [] => .ok errors
  | (field, .mk ftype lbl validation sub) :: rest => do
      let errors ←
        match validation with
        | none => pure errors
        | some rules => validateRules obj field ftype lbl sub errors rules
      validateFields obj rest errors
termination_by (sizeOf schema, 0, 0)

/-- One iteration body of the validate rules loop, after the break test:
reads the field value, runs the object-validate branch (which recurses and
whose errors break out of the loop, signalled by inl), then falls through
to the switch (inr carries the updated error list). -/
def validateRuleStep (obj : JSVal) (field : String) (ftype : String)
    (lbl : Option String) (sub : Option (List (String × VField)))
    (errors : List String) (vname : String) (vparam : VParam) :
    Except JSError (List String ⊕ List String) := do
  let value ← getProp obj field
  let subRes : Except JSError (Option (List String)) :=
    if ftype = "object" && vname = "validate" && truthyParam vparam then
      match sub with
      | none => .error .typeError
      | some subSchema => do
          let subErrors ← validateFields value subSchema []
          if !subErrors.isEmpty then
            .ok (some (errors ++ subErrors))
          else
            .ok none
    else
      .ok none
  match ← subRes with
  | some broken => .ok (.inl broken)
  | none => do
      let errors ← validateSwitch value field lbl errors vname vparam
      .ok (.inr errors)
termination_by (sizeOf sub, 0, 0)

/-- The inner for-in loop of validate over one field's validation rules.
The break at the top of each iteration tests the shared errors list. -/
def validateRules (obj : JSVal) (field : String) (ftype : String)
    (lbl : Option String) (sub : Option (List (String × VField)))
    (errors : List String) (rules : List (String × VParam)) :
    Except JSError (List String) :=
  match rules with
  | [] => .ok errors
  | (vname, vparam) :: rest =>
      if errors.length > 0 then
        .ok errors
      else do
        match ← validateRuleStep obj field ftype lbl sub errors vname vparam with
        | .inl broken => .ok broken
        | .inr errors => validateRules obj field ftype lbl sub errors rest
termination_by (sizeOf sub, 1, sizeOf rules)
end

/-- Store.prototype.validate, with the final errors.length > 0 choice kept
as the list itself: the source returns true exactly when the list is
empty. -/
def validate (obj : JSVal) (schema : List (String × VField)) :
    Except JSError (List String) :=
  validateFields obj schema []

mutual
/-- The schema property of a descriptor as read by the object and array
sanitizers: undefined (absent), the null literal, the false literal, or a
factory function returning a nested descriptor tree. -/
inductive SchemaProp where
  | undef
  | nul
  | bfalse
  | factory (s : List (String × SField))

/-- A schema field descriptor as consumed by sanitize: the type tag, the
optional initial factory (hasInitial false models typeof initial being
undefined), the value key used by function-typed fields, numeric and
length bounds, the schema property, memberType for arrays, an optional
custom sanitize function (the descriptor argument it also receives in the
source is dropped), the optional constructor (none models the inherited
Object constructor, which returns its argument unchanged), and the
datetime format and utc options.  memberTypeConfig is not modelled: the
synthesized member descriptor is always the extend base of the source. -/
inductive SField where
  | mk (ftype : String)
       (hasInitial : Bool) (initVal : JSVal)
       (fvalue : JSVal)
       (fmin fmax : Option Int)
       (fminLength fmaxLength : Option Nat)
       (schemaProp : SchemaProp)
       (memberType : Option String)
       (sanitizeFn : Option (JSVal → JSVal))
       (ctor : Option (JSVal → JSVal))
       (format : String) (utc : Option Bool)
end

/-- Depth contributed by a memberType option: presence forces one level of
member sanitization. -/
def mtDepth : Option String → Nat
  | none => 0
  | some _ => 1

mutual
/-- Nesting depth of a schema property, counting factory levels. -/
def SchemaProp.depth : SchemaProp → Nat
  | .undef => 0
  | .nul => 0
  | .bfalse => 0
  | .factory s => SFieldListDepth s + 1

/-- Nesting depth of a descriptor tree. -/
def SFieldListDepth : List (String × SField) → Nat
  | [] => 0
  | (_, fs) :: rest => max (SField.depth fs) (SFieldListDepth rest)

/-- Nesting depth of one field descriptor. -/
def SField.depth : SField → Nat
  | .mk _ _ _ _ _ _ _ _ sp mt _ _ _ _ =>
      max (SchemaProp.depth sp) (mtDepth mt) + 1
end

/-- JavaScript parseFloat on the modelled values: numbers parse to
themselves, strings parse optional whitespace, sign and leading digits
(fractional digits are not modelled, numbers being integers), everything
else is NaN (none). -/
def parseFloatJS : JSVal → Option Int
  | .vnum n => some n
  | .vstr s =>
      match skipSpaces s.data with
      | '-' :: cs => (parseLeadingDigits cs none).map (fun n => -(n : Int))
      | '+' :: cs => (parseLeadingDigits cs none).map (fun n => (n : Int))
      | cs => (parseLeadingDigits cs none).map (fun n => (n : Int))
  | _ => none

/-- Store.prototype.sanitizeFloat: parseFloat, throw below min or above
max; a NaN result is returned as-is (the source has no NaN check here). -/
def sanitizeFloat (value : JSVal) (fmin fmax : Option Int) :
    Except JSError JSVal :=
  let v := parseFloatJS value
  if belowBound v fmin then
    .error (.thrown "Provided value cannot be sanitized, value is below minimum float allowed")
  else if aboveBound v fmax then
    .error (.thrown "Provided value cannot be sanitized, value is greater than maximum float allowed")
  else
    match v with
    | none => .ok .vnan
    | some n => .ok (.vnum n)

/-- JavaScript String(value) on the modelled values.  Structured values
stringify through their toString, modelled opaquely: no claim exercises
them. -/
def jsToString : JSVal → String
  | .vstr s => s
  | .vnum n => toString n
  | .vnan => "NaN"
  | .vbool b => if b then "true" else "false"
  | .vnull => "null"
  | .vundefined => "undefined"
  | .varr _ => "[array]"
  | .vobj _ => "[object Object]"
  | .vdate _ => "[date]"
  | .vmoment _ => "[moment]"
  | .vfunc _ => "[function]"

/-- The comparison value.length < schemaConfig.minLength with an unset
bound undefined, making the comparison false. -/
def lenBelow (len : Nat) (bound : Option Nat) : Bool :=
  match bound with
  | some b => len < b
  | none => false

/-- The comparison value.length > schemaConfig.maxLength, same
conventions. -/
def lenAbove (len : Nat) (bound : Option Nat) : Bool :=
  match bound with
  | some b => b < len
  | none => false

/-- Store.prototype.sanitizeString: coerce to string, throw when under
minLength, truncate (with a logged warning) to maxLength. -/
def sanitizeString (value : JSVal) (fminLength fmaxLength : Option Nat) :
    Except JSError JSVal :=
  let s := jsToString value
  if lenBelow s.length fminLength then
    .error (.thrown "Provided value cannot be sanitized, string length is below minimum allowed")
  else if lenAbove s.length fmaxLength then
    .ok (.vstr (String.mk (s.data.take (fmaxLength.getD 0))))
  else .ok (.vstr s)

/-- Leading and trailing spaces removed, as String.prototype.trim does on
the modelled inputs. -/
def trimSpaces (s : String) : String :=
  String.mk (((s.data.dropWhile (· = ' ')).reverse.dropWhile (· = ' ')).reverse)

/-- Lower-cased string, as String.prototype.toLowerCase on ASCII data. -/
def lowerStr (s : String) : String :=
  String.mk (s.data.map Char.toLower)

/-- Store.prototype.sanitizeBoolean: literal booleans pass through,
case-insensitive trimmed "false"/"true" strings convert, then parseInt 0
and 1 convert, anything else throws. -/
def sanitizeBoolean (value : JSVal) : Except JSError JSVal :=
  match value with
  | .vbool b => .ok (.vbool b)
  | v =>
      let strFalse :=
        match v with
        | .vstr s => lowerStr (trimSpaces s) == "false"
        | _ => false
      let strTrue :=
        match v with
        | .vstr s => lowerStr (trimSpaces s) == "true"
        | _ => false
      if strFalse then .ok (.vbool false)
      else if strTrue then .ok (.vbool true)
      else if parseIntJS v = some 0 then .ok (.vbool false)
      else if parseIntJS v = some 1 then .ok (.vbool true)
      else .error (.thrown "Provided value cannot be santized, is not a valid boolean")

/-- moment(value, format) validity and timestamp, modelled on the fragment
the store feeds it: existing temporal values and numbers are valid with
their timestamp, non-empty all-digit strings parse, everything else is
invalid.  The format string and utc flag do not change validity in this
model. -/
def momentParse (value : JSVal) : Option Int :=
  match value with
  | .vmoment t => some t
  | .vdate t => some t
  | .vnum n => some n
  | .vstr s =>
      if s.data ≠ [] && s.data.all Char.isDigit then
        some ((s.data.foldl (fun a c => a * 10 + (c.toNat - 48)) 0 : Nat) : Int)
      else none
  | _ => none

/-- The canonical YYYY-MM-DD hh:mm:ss serialization of a parsed moment,
modelled as an injective rendering of the timestamp. -/
def formatDateTime (t : Int) : String :=
  "datetime:" ++ toString t

/-- Store.prototype.sanitizeDateTime: parse with moment (utc or local per
the utc option — identical in this model), return the canonical string in
json mode or the moment instance otherwise, and throw on an invalid
date. -/
def sanitizeDateTime (value : JSVal) (json : Bool) : Except JSError JSVal :=
  match momentParse value with
  | some t => if json then .ok (.vstr (formatDateTime t)) else .ok (.vmoment t)
  | none =>
      .error (.thrown ("Provided value (" ++ jsToString value ++ ") cannot be sanitized, is not a valid date"))

/-- Store.prototype.sanitizeCallback: the value must already be a
function. -/
def sanitizeCallback (value : JSVal) : Except JSError JSVal :=
  match value with
  | .vfunc id => .ok (.vfunc id)
  | _ => .error (.thrown "Provided callback is not a valid function")

/-- new schemaConfig.constructor(x): a supplied constructor produces its
instance; the inherited Object constructor (none) returns x itself. -/
def applyCtor (ctor : Option (JSVal → JSVal)) (x : JSVal) : JSVal :=
  (ctor.getD id) x

/-- The member descriptor synthesized by sanitizeArray for a memberType:
the extend base with the member type tag and a null schema. -/
def defaultMember (t : String) : SField :=
  .mk t false .vnull .vnull none none none none .nul none none none "" none

mutual
/-- The for-in loop of Store.prototype.sanitize over the schema fields,
building the clean object field by field. -/
def sanitizeFields (obj : JSVal) (json : Bool)
    (schema : List (String × SField)) :
    Except JSError (List (String × JSVal)) :=
  match schema with
  | [] => .ok []
  | (field, fs) :: rest => do
      let v ← sanitizeField field fs json obj
      let restClean ← sanitizeFields obj json rest
      .ok ((field, v) :: restClean)
termination_by (4 * SFieldListDepth schema + 3, schema.length)
decreasing_by
  all_goals ((try simp [SFieldListDepth, SField.depth, SchemaProp.depth, mtDepth, defaultMember]); omega)

/-- Store.prototype.sanitizeField: function-typed fields return the
descriptor value; an undefined source value is replaced by the initial
factory result or null; null short-circuits except for object types; the
switch dispatches on the type tag, falling through (undefined result) for
an unrecognized tag without a custom sanitizer. -/
def sanitizeField (field : String) (fs : SField) (json : Bool)
    (obj : JSVal) : Except JSError JSVal :=
  match fs with
  | .mk ftype hasInitial initVal fvalue fmin fmax fminLength fmaxLength
      sp mt sanitizeFn ctor _format _utc =>
    if ftype = "function" then .ok fvalue
    else
      let fv := objGet obj field
      let fv := if typeOf fv = "undefined" then
          (if hasInitial then initVal else .vnull) else fv
      if isNull fv && ftype ≠ "obj" && ftype ≠ "object" then .ok .vnull
      else if ftype = "int" || ftype = "integer" then
        sanitizeInteger fv { min := fmin, max := fmax }
      else if ftype = "float" || ftype = "double" then
        sanitizeFloat fv fmin fmax
      else if ftype = "string" || ftype = "char" || ftype = "varchar" then
        sanitizeString fv fminLength fmaxLength
      else if ftype = "date" || ftype = "datetime" || ftype = "timestamp" then
        sanitizeDateTime fv json
      else if ftype = "bool" || ftype = "boolean" then
        sanitizeBoolean fv
      else if ftype = "obj" || ftype = "object" then
        sanitizeObject fv sp ctor json
      else if ftype = "array" || ftype = "collection" then
        sanitizeArray fv sp mt ctor json
      else if ftype = "callback" then
        sanitizeCallback fv
      else
        match sanitizeFn with
        | some f => .ok (f fv)
        | none => .ok .vundefined
termination_by (4 * SField.depth fs + 2, 0)
decreasing_by
  all_goals ((try simp [SFieldListDepth, SField.depth, SchemaProp.depth, mtDepth, defaultMember]); omega)

/-- Store.prototype.sanitizeObject: throw without a schema key, pass the
value through for a null schema, short-circuit null values, and recurse
through the factory — via the constructor when not producing the wire
format (the source tests typeof schemaConfig.constructor, which every
object inherits).  A non-callable schema value (false) throws when
called. -/
def sanitizeObject (value : JSVal) (sp : SchemaProp)
    (ctor : Option (JSVal → JSVal)) (json : Bool) : Except JSError JSVal :=
  match sp with
  | .undef =>
      .error (.thrown "Provided value cannot be santized, no reference schema provided for field type of object")
  | .nul => .ok value
  | .bfalse =>
      if isNull value then .ok .vnull else .error .typeError
  | .factory sub =>
      if isNull value then .ok .vnull
      else if !json then do
        let s ← sanitizeFields value false sub
        .ok (applyCtor ctor (.vobj s))
      else do
        let s ← sanitizeFields value json sub
        .ok (.vobj s)
termination_by (4 * SchemaProp.depth sp + 1, 0)
decreasing_by
  all_goals ((try simp [SFieldListDepth, SField.depth, SchemaProp.depth, mtDepth, defaultMember]); omega)

/-- The element map of sanitizeArray in the memberType branch: every
element is sanitized as the member field of a one-field synthetic
schema. -/
def sanitizeMemberElems (t : String) (json : Bool) (elems : List JSVal) :
    Except JSError (List JSVal) :=
  match elems with
  | [] => .ok []
  | v :: vs => do
      let v2 ← sanitizeField "member" (defaultMember t) json
        (.vobj [("member", v)])
      let rest ← sanitizeMemberElems t json vs
      .ok (v2 :: rest)
termination_by (7, elems.length)
decreasing_by
  all_goals ((try simp [SFieldListDepth, SField.depth, SchemaProp.depth, mtDepth, defaultMember]); omega)

/-- The element map of sanitizeArray in the nested-schema branch. -/
def sanitizeArrayElems (sub : List (String × SField))
    (ctor : Option (JSVal → JSVal)) (json : Bool) (elems : List JSVal) :
    Except JSError (List JSVal) :=
  match elems with
  | [] => .ok []
  | v :: vs => do
      let v2 ←
        if !json then do
          let s ← sanitizeFields v false sub
          pure (applyCtor ctor (.vobj s))
        else do
          let s ← sanitizeFields v json sub
          pure (.vobj s)
      let rest ← sanitizeArrayElems sub ctor json vs
      .ok (v2 :: rest)
termination_by (4 * SFieldListDepth sub + 4, elems.length)
decreasing_by
  all_goals ((try simp [SFieldListDepth, SField.depth, SchemaProp.depth, mtDepth, defaultMember]); omega)

/-- Store.prototype.sanitizeArray: with a memberType, non-arrays coerce to
an empty sequence and elements are sanitized against the synthesized
member descriptor; otherwise non-arrays coerce to empty, an undefined,
null or false schema passes the array through, and a factory schema
sanitizes each element (through the constructor when not producing wire
format). -/
def sanitizeArray (value : JSVal) (sp : SchemaProp) (mt : Option String)
    (ctor : Option (JSVal → JSVal)) (json : Bool) : Except JSError JSVal :=
  match mt with
  | some t =>
      match value with
      | .varr es => do
          let es2 ← sanitizeMemberElems t json es
          .ok (.varr es2)
      | _ => .ok (.varr [])
  | none =>
      match value with
      | .varr es =>
          (match sp with
          | .undef => .ok (.varr es)
          | .nul => .ok (.varr es)
          | .bfalse => .ok (.varr es)
          | .factory sub => do
              let es2 ← sanitizeArrayElems sub ctor json es
              .ok (.varr es2))
      | _ => .ok (.varr [])
termination_by (4 * max (SchemaProp.depth sp) (mtDepth mt) + 4, 0)
decreasing_by
  all_goals ((try simp [SFieldListDepth, SField.depth, SchemaProp.depth, mtDepth, defaultMember]); omega)
end

/-- Store.prototype.sanitize: deep-copy the input (implicit under value
semantics), then build the clean object containing one entry per schema
field. -/
def sanitize (obj : JSVal) (schema : List (String × SField))
    (json : Bool) : Except JSError JSVal := do
  let cleaned ← sanitizeFields obj json schema
  .ok (.vobj cleaned)

/-
Shared helper lemmas.
-/

/-- Notifying pure listeners (callbacks that make no store calls) only
appends one notification record per listener. -/
theorem foldl_pure_listeners : ∀ (ls : List Listener) (old : JSVal)
    (s : StoreState), (∀ l ∈ ls, l.acts = []) →
    ls.foldl (fun s l =>
      runActs l.acts
        { s with notifications := s.notifications ++ [(s.state, old)] }) s =
    { s with notifications :=
        s.notifications ++ ls.map (fun _ => (s.state, old)) } := by
  intro ls
  induction ls with
  | nil => intro old s _; simp
  | cons l ls ih =>
      intro old s hp
      simp only [List.foldl_cons]
      have hl : l.acts = [] := hp l (by simp)
      rw [hl]
      have step : runActs []
          { s with notifications := s.notifications ++ [(s.state, old)] } =
          { s with notifications := s.notifications ++ [(s.state, old)] } :=
        rfl
      rw [step, ih old _ (fun x hx => hp x (by simp [hx]))]
      simp

/-- notify with pure listeners: one notification per listener carrying the
committed state and the old state, then the dirty flag cleared. -/
theorem notify_pure (old : JSVal) (s : StoreState)
    (hp : ∀ l ∈ s.listeners, l.acts = []) :
    notify old s = { s with
      dirtyState := false
      notifications := s.notifications ++
        s.listeners.map (fun _ => (s.state, old)) } := by
  unfold notify
  rw [foldl_pure_listeners s.listeners old s hp]

/-- stateChange on an already-dirty store does not call queueFlush and
keeps the store dirty. -/
theorem stateChange_dirty (n : String) (v : JSVal) (s : StoreState)
    (h : s.dirtyState = true) :
    (stateChange n v s).dirtyState = true ∧
    (stateChange n v s).queueCalls = s.queueCalls := by
  simp [stateChange, h]

/-- A listener body run on a dirty store keeps it dirty and never calls
queueFlush. -/
theorem runActs_dirty : ∀ (acts : List ListenerAct) (s : StoreState),
    s.dirtyState = true →
    (runActs acts s).dirtyState = true ∧
    (runActs acts s).queueCalls = s.queueCalls := by
  intro acts
  induction acts with
  | nil => intro s h; simp [runActs, h]
  | cons a acts ih =>
      intro s h
      obtain ⟨n, v⟩ := a
      have e : runActs ((ListenerAct.change n v) :: acts) s =
          runActs acts (stateChange n v s) := rfl
      obtain ⟨h1, h2⟩ := stateChange_dirty n v s h
      obtain ⟨h3, h4⟩ := ih (stateChange n v s) h1
      exact ⟨by rw [e]; exact h3, by rw [e, h4, h2]⟩

/-- The notification loop run on a dirty store keeps it dirty throughout
and never calls queueFlush, whatever the listeners do. -/
theorem notifyFold_dirty : ∀ (ls : List Listener) (old : JSVal)
    (s : StoreState), s.dirtyState = true →
    ((ls.foldl (fun s l =>
        runActs l.acts
          { s with notifications := s.notifications ++ [(s.state, old)] })
        s).dirtyState = true ∧
     (ls.foldl (fun s l =>
        runActs l.acts
          { s with notifications := s.notifications ++ [(s.state, old)] })
        s).queueCalls = s.queueCalls) := by
  intro ls
  induction ls with
  | nil => intro old s h; simp [h]
  | cons l ls ih =>
      intro old s h
      simp only [List.foldl_cons]
      obtain ⟨h1, h2⟩ := runActs_dirty l.acts
        { s with notifications := s.notifications ++ [(s.state, old)] } h
      obtain ⟨h3, h4⟩ := ih old _ h1
      exact ⟨h3, by rw [h4, h2]⟩

/-- notify on a dirty store ends not dirty and never queued a flush. -/
theorem notify_during_dirty (old : JSVal) (s : StoreState)
    (h : s.dirtyState = true) :
    (notify old s).dirtyState = false ∧
    (notify old s).queueCalls = s.queueCalls := by
  unfold notify
  obtain ⟨h1, h2⟩ := notifyFold_dirty s.listeners old s h
  exact ⟨rfl, h2⟩

/-- flush is notify applied to the promoted store, with the history entry
appended first when debugging: the debug-off shape. -/
theorem flush_eq_notify_no_debug (st : StoreState) (hd : st.debug = false) :
    flush st = notify (shallowCopy st.state)
      { st with state := st.nextSt, nextSt := .vnull } := by
  simp [flush, hd]

/-- flush is notify applied to the promoted store: the debug-on shape. -/
theorem flush_eq_notify_debug (st : StoreState) (hd : st.debug = true) :
    flush st = notify (shallowCopy st.state)
      { st with
        state := st.nextSt
        nextSt := .vnull
        stateHistory := st.stateHistory ++
          [(String.intercalate "," st.pendingActions,
            shallowCopy st.state)] } := by
  simp [flush, hd]

/-
C1 — flush promotes the draft, but never clears pendingActions.
-/

/-- A store as it stands when StoreManager flushes it: one recorded action,
one pure listener. -/
def c1Store : StoreState :=
  { state := .vobj [("x", .vnum 1)]
    nextSt := .vobj [("x", .vnum 2)]
    dirtyState := true
    pendingActions := ["setX"]
    listeners := [⟨1, []⟩] }

/-- C1 counterexample: after flush() returns, the pending-action-name
sequence is NOT empty — the source never resets pendingActions. -/
theorem C1_counterexample :
    (flush c1Store).pendingActions = ["setX"] ∧
    (flush c1Store).pendingActions ≠ [] := by
  constructor
  · rfl
  · intro h
    have : (flush c1Store).pendingActions = ["setX"] := rfl
    rw [this] at h
    cases h

/-- C1 (amended): for every store whose listeners make no re-entrant store
calls, flush promotes the pending draft (draft becomes null, dirty becomes
false), appends a history entry joining all pending action names exactly
when debug mode is active, and notifies every listener with the new state
and a shallow copy of the old state — but the pending-action-name sequence
is left unchanged, not cleared. -/
theorem C1_flush_promotes_without_clearing (st : StoreState)
    (hp : ∀ l ∈ st.listeners, l.acts = []) :
    flush st = { st with
      state := st.nextSt
      nextSt := .vnull
      dirtyState := false
      stateHistory := st.stateHistory ++
        (if st.debug then
          [(String.intercalate "," st.pendingActions, shallowCopy st.state)]
          else [])
      notifications := st.notifications ++
        st.listeners.map (fun _ => (st.nextSt, shallowCopy st.state)) } := by
  cases hd : st.debug with
  | false =>
      rw [flush_eq_notify_no_debug st hd,
        notify_pure (shallowCopy st.state)
          { st with state := st.nextSt, nextSt := .vnull } hp]
      simp [hd]
  | true =>
      rw [flush_eq_notify_debug st hd,
        notify_pure (shallowCopy st.state)
          { st with
            state := st.nextSt
            nextSt := .vnull
            stateHistory := st.stateHistory ++
              [(String.intercalate "," st.pendingActions,
                shallowCopy st.state)] } hp]
      simp [hd]

/-- C1 witness: the amended flush theorem evaluated on the concrete store,
showing every promoted component and the surviving pendingActions. -/
theorem C1_flush_promotes_without_clearing_witness :
    flush c1Store = { c1Store with
      state := .vobj [("x", .vnum 2)]
      nextSt := .vnull
      dirtyState := false
      notifications := [(.vobj [("x", .vnum 2)], .vobj [("x", .vnum 1)])] } := by
  have h := C1_flush_promotes_without_clearing c1Store
    (by intro l hl; simp [c1Store] at hl; rw [hl])
  rw [h]
  rfl

/-
C2 — seed: the early return aborts the merge and the dispatch.
-/

/-- A store whose draft will have key a undefined and key b defined: the
configuration of the first seed example in the spec. -/
def c2StoreAB : StoreState :=
  { state := .vobj [("a", .vundefined), ("b", .vnum 1)] }

/-- The seed payload of the first example. -/
def c2PayloadA : JSVal := .vobj [("state", .vobj [("a", .vnum 1)])]

/-- A store whose draft has a defined and b undefined, seeded with a
payload supplying only b. -/
def c2StoreBA : StoreState :=
  { state := .vobj [("a", .vnum 5), ("b", .vundefined)] }

/-- The payload supplying only key b. -/
def c2PayloadB : JSVal := .vobj [("state", .vobj [("b", .vnum 2)])]

/-- C2: the claim is the intended behavior and the code diverges.  On the
spec's own first example the merge sets a to 1 and leaves b untouched, but
the loop hits a return (where a continue is meant) at key b — absent from
the payload — so the merged draft is never dispatched on the action bus;
and when a draft key missing from the payload precedes a key the payload
does define (here b), that later key is never merged at all. -/
theorem C2_seed_early_return_bug :
    (seed c2PayloadA c2StoreAB = .ok { c2StoreAB with
      nextSt := .vobj [("a", .vnum 1), ("b", .vnum 1)] } ∧
     ∀ st, seed c2PayloadA c2StoreAB = .ok st → st.dispatches = []) ∧
    (seed c2PayloadB c2StoreBA = .ok { c2StoreBA with
      nextSt := .vobj [("a", .vnum 5), ("b", .vundefined)] } ∧
     ∀ st, seed c2PayloadB c2StoreBA = .ok st →
       objGet st.nextSt "b" = .vundefined) := by
  refine ⟨⟨rfl, ?_⟩, rfl, ?_⟩
  · intro st h
    have e : seed c2PayloadA c2StoreAB = .ok { c2StoreAB with
        nextSt := .vobj [("a", .vnum 1), ("b", .vnum 1)] } := rfl
    rw [e] at h
    cases h
    rfl
  · intro st h
    have e : seed c2PayloadB c2StoreBA = .ok { c2StoreBA with
        nextSt := .vobj [("a", .vnum 5), ("b", .vundefined)] } := rfl
    rw [e] at h
    cases h
    rfl

/-
C3 — validate: the break tests the global error list, so one failing
field suppresses every later field.
-/

/-- Once any error has accumulated, the rules loop breaks immediately. -/
theorem validateRules_stops (obj : JSVal) (field ftype : String)
    (lbl : Option String) (sub : Option (List (String × VField)))
    (errors : List String) (rules : List (String × VParam))
    (h : errors ≠ []) :
    validateRules obj field ftype lbl sub errors rules = .ok errors := by
  have hl : errors.length > 0 := List.length_pos.mpr h
  cases rules with
  | nil => simp [validateRules]
  | cons r rest =>
      obtain ⟨vname, vparam⟩ := r
      simp [validateRules, hl]

/-- Once any error has accumulated, no later schema field adds errors. -/
theorem validateFields_stops : ∀ (schema : List (String × VField))
    (obj : JSVal) (errors : List String), errors ≠ [] →
    validateFields obj schema errors = .ok errors := by
  intro schema
  induction schema with
  | nil => intro obj errors h; simp [validateFields]
  | cons hd rest ih =>
      intro obj errors h
      obtain ⟨field, fs⟩ := hd
      obtain ⟨ftype, lbl, validation, sub⟩ := fs
      cases validation with
      | none =>
          rw [validateFields.eq_def]
          simp only [bind, Except.bind, pure]
          exact ih obj errors h
      | some rules =>
          rw [validateFields.eq_def]
          simp only [bind, Except.bind]
          rw [validateRules_stops obj field ftype lbl sub errors rules h]
          exact ih obj errors h

/-- Splitting the schema at the point the error list became non-empty:
the fields after the split contribute nothing. -/
theorem validateFields_append : ∀ (s1 s2 : List (String × VField))
    (obj : JSVal) (errs0 errs : List String),
    validateFields obj s1 errs0 = .ok errs → errs ≠ [] →
    validateFields obj (s1 ++ s2) errs0 = .ok errs := by
  intro s1
  induction s1 with
  | nil =>
      intro s2 obj errs0 errs h hne
      simp [validateFields] at h
      subst h
      simpa using validateFields_stops s2 obj errs0 hne
  | cons hd rest ih =>
      intro s2 obj errs0 errs h hne
      obtain ⟨field, fs⟩ := hd
      obtain ⟨ftype, lbl, validation, sub⟩ := fs
      cases validation with
      | none =>
          rw [validateFields.eq_def] at h ⊢
          simp only [bind, Except.bind, pure, List.cons_append] at h ⊢
          exact ih s2 obj errs0 errs h hne
      | some rules =>
          rw [validateFields.eq_def] at h ⊢
          simp only [bind, Except.bind, List.cons_append] at h ⊢
          cases hr : validateRules obj field ftype lbl sub errs0 rules with
          | error e => rw [hr] at h; exact absurd h (by simp)
          | ok e1 =>
              rw [hr] at h
              simp only [] at h ⊢
              exact ih s2 obj e1 errs h hne

/-- The empty object validated against two required fields. -/
def c3Obj : JSVal := .vobj []

/-- A schema with two fields that both carry a required rule. -/
def c3Schema : List (String × VField) :=
  [("a", .mk "string" none (some [("required", .pbool true)]) none),
   ("b", .mk "string" none (some [("required", .pbool true)]) none)]

/-- C3 counterexample: with two required fields and an empty object, both
fields violate their rule, yet validate reports only the first field's
error — the error of field a suppresses the rules of field b. -/
theorem C3_counterexample :
    validate c3Obj c3Schema = .ok ["a is required"] ∧
    validate c3Obj [("b", .mk "string" none
      (some [("required", .pbool true)]) none)] = .ok ["b is required"] := by
  constructor
  · simp +decide [validate, c3Schema, c3Obj, validateFields, validateRules,
      validateRuleStep, validateSwitch, getProp, failsRequired, truthyParam,
      bind, Except.bind, List.lookup, String.isEmpty]
  · simp +decide [validate, c3Obj, validateFields, validateRules,
      validateRuleStep, validateSwitch, getProp, failsRequired, truthyParam,
      bind, Except.bind, List.lookup, String.isEmpty]

/-- C3 (amended): validate stops collecting errors globally, not per
field: as soon as any field has produced an error, the rule lists of the
current and of every subsequent field are skipped (the loop break tests
the shared accumulated error list), so validate returns exactly the first
failing field's messages and an error in an earlier field suppresses all
later fields. -/
theorem C3_validate_stops_globally (obj : JSVal)
    (s1 s2 : List (String × VField)) (errs : List String)
    (h : validate obj s1 = .ok errs) (hne : errs ≠ []) :
    validate obj (s1 ++ s2) = .ok errs := by
  unfold validate at h ⊢
  exact validateFields_append s1 s2 obj [] errs h hne

/-- C3 witness: the amended theorem applied to the failing field a and the
suffix containing field b reproduces the counterexample configuration. -/
theorem C3_validate_stops_globally_witness :
    validate c3Obj c3Schema = .ok ["a is required"] := by
  have base : validate c3Obj [("a", .mk "string" none
      (some [("required", .pbool true)]) none)] = .ok ["a is required"] := by
    simp +decide [validate, c3Obj, validateFields, validateRules,
      validateRuleStep, validateSwitch, getProp, failsRequired, truthyParam,
      bind, Except.bind, List.lookup, String.isEmpty]
  have h := C3_validate_stops_globally c3Obj
    [("a", .mk "string" none (some [("required", .pbool true)]) none)]
    [("b", .mk "string" none (some [("required", .pbool true)]) none)]
    ["a is required"] base (by simp)
  simpa [c3Schema] using h

/-
C4 / C5 — upsertItem and seed misuse handling.
-/

/-- upsertItem rejects a value whose typeof is not object: warn and
return false, collection untouched. -/
theorem upsert_nonobject (a k it : JSVal) (ow : Bool)
    (h : typeOf it ≠ "object") : upsertItem a k it ow = .ok (false, a) := by
  simp [upsertItem, h]

/-- upsertItem rejects an item carrying a conflicting identity key: warn
and return false, collection untouched. -/
theorem upsert_conflict (a k it bid : JSVal) (ow : Bool)
    (hobj : typeOf it = "object")
    (hb : getProp it "__bID" = .ok bid)
    (hd : typeOf bid ≠ "undefined") (hc : strictEq bid k = false) :
    upsertItem a k it ow = .ok (false, a) := by
  simp [upsertItem, hobj, hb, hd, hc, bind, Except.bind]

/-- A false return from upsertItem leaves the collection untouched and
happens only for a non-object item or a conflicting identity key. -/
theorem upsert_false_cases (a k it : JSVal) (ow : Bool) (b : Bool)
    (out : JSVal) (h : upsertItem a k it ow = .ok (b, out)) (hb : b = false) :
    out = a ∧ (typeOf it ≠ "object" ∨
      ∃ bid, getProp it "__bID" = .ok bid ∧ typeOf bid ≠ "undefined" ∧
        strictEq bid k = false) := by
  subst hb
  unfold upsertItem at h
  simp only [bind, Except.bind] at h
  split at h
  next hno =>
    simp at h
    exact ⟨h.symm, Or.inl hno⟩
  next hobj =>
    cases hbp : getProp it "__bID" with
    | error e => rw [hbp] at h; simp at h
    | ok bid =>
        rw [hbp] at h
        simp only [] at h
        split at h
        next hcond =>
          simp at h
          simp at hcond
          refine ⟨h.symm, Or.inr ⟨bid, rfl, ?_, ?_⟩⟩
          · simp [hcond.1]
          · simpa using hcond.2
        next hcond =>
          cases hf : findBID (toElems a) k with
          | error e => rw [hf] at h; simp at h
          | ok existing =>
              rw [hf] at h
              cases existing with
              | none => simp at h
              | some i => simp at h

/-- Whatever upsertItem returns for a non-array collection, the caller's
value is untouched: the source rebinds a local variable only. -/
theorem upsert_nonarray_preserves (a k it : JSVal) (ow : Bool) (b : Bool)
    (out : JSVal) (hna : isArray a = false)
    (h : upsertItem a k it ow = .ok (b, out)) : out = a := by
  unfold upsertItem at h
  simp only [bind, Except.bind] at h
  split at h
  next => simp at h; exact h.2.symm
  next =>
    cases hbp : getProp it "__bID" with
    | error e => rw [hbp] at h; simp at h
    | ok bid =>
        rw [hbp] at h
        simp only [] at h
        split at h
        next => simp at h; exact h.2.symm
        next =>
          cases hf : findBID (toElems a) k with
          | error e => rw [hf] at h; simp at h
          | ok existing =>
              rw [hf] at h
              cases existing with
              | none => simp [hna] at h; exact h.2.symm
              | some i => simp [hna] at h; exact h.2.symm

/-- C4 counterexample: structural misuse can raise an exception after all.
A null item passes the typeof object test and then throws a TypeError when
its identity key is read, and a null seed payload likewise throws when its
state member is read — both are the null cases the claim covers. -/
theorem C4_counterexample :
    upsertItem (.varr []) (.vnum 1) .vnull false = .error .typeError ∧
    seed .vnull ({} : StoreState) = .error .typeError := by
  exact ⟨rfl, rfl⟩

/-- C4 (amended): warn-and-continue holds for misuse values whose typeof
is not object: upsertItem with such an item returns false without
throwing, seed with such a payload, or with a payload whose state member
has typeof other than object (missing included), is a warned no-op — but
null arguments (typeof object) escape these guards and throw a TypeError
when a property of null is read. -/
theorem C4_misuse_warns_except_null :
    (∀ (a k it : JSVal) (ow : Bool), typeOf it ≠ "object" →
      upsertItem a k it ow = .ok (false, a)) ∧
    (∀ (p : JSVal) (st : StoreState), typeOf p ≠ "object" →
      seed p st = .ok st) ∧
    (∀ (p ps : JSVal) (st : StoreState), typeOf p = "object" →
      getProp p "state" = .ok ps → typeOf ps ≠ "object" →
      seed p st = .ok st) := by
  refine ⟨upsert_nonobject, ?_, ?_⟩
  · intro p st h
    simp [seed, h]
  · intro p ps st h1 h2 h3
    simp [seed, h1, h2, h3, bind, Except.bind]

/-- C4 witness: the amended theorem applied to a numeric item, a numeric
payload, and a payload with a missing state member. -/
theorem C4_misuse_warns_except_null_witness :
    upsertItem (.varr []) (.vnum 1) (.vstr "oops") false =
      .ok (false, .varr []) ∧
    seed (.vnum 7) ({} : StoreState) = .ok {} ∧
    seed (.vobj []) ({} : StoreState) = .ok {} := by
  refine ⟨?_, ?_, ?_⟩
  · exact C4_misuse_warns_except_null.1 (.varr []) (.vnum 1) (.vstr "oops")
      false (by simp [typeOf])
  · exact C4_misuse_warns_except_null.2.1 (.vnum 7) {} (by simp [typeOf])
  · exact C4_misuse_warns_except_null.2.2 (.vobj []) .vundefined {}
      (by simp [typeOf]) (by rfl) (by simp [typeOf])

/-- C5 counterexample: a non-array collection does not produce a false
return — upsertItem warns, rebinds a local empty array, pushes into it and
returns true, leaving the caller's value untouched. -/
theorem C5_counterexample :
    upsertItem (.vnum 7) (.vnum 1) (.vobj []) false = .ok (true, .vnum 7) := by
  rfl

/-- C5 (amended): upsertItem returns false (with a logged warning) in
exactly two misuse cases — a non-object item and a conflicting identity
key — and in both the collection is untouched; a non-array collection is
coerced to a warned local empty array, so the call returns true while the
caller's collection is never usefully mutated. -/
theorem C5_upsert_false_exactly_two_cases :
    (∀ (a k it : JSVal) (ow : Bool), typeOf it ≠ "object" →
      upsertItem a k it ow = .ok (false, a)) ∧
    (∀ (a k it bid : JSVal) (ow : Bool), typeOf it = "object" →
      getProp it "__bID" = .ok bid → typeOf bid ≠ "undefined" →
      strictEq bid k = false → upsertItem a k it ow = .ok (false, a)) ∧
    (∀ (a k it : JSVal) (ow : Bool) (b : Bool) (out : JSVal),
      upsertItem a k it ow = .ok (b, out) → b = false →
      out = a ∧ (typeOf it ≠ "object" ∨
        ∃ bid, getProp it "__bID" = .ok bid ∧ typeOf bid ≠ "undefined" ∧
          strictEq bid k = false)) ∧
    (∀ (a k it : JSVal) (ow : Bool) (b : Bool) (out : JSVal),
      isArray a = false → upsertItem a k it ow = .ok (b, out) → out = a) := by
  exact ⟨upsert_nonobject,
    fun a k it bid ow hobj hb hd hc => upsert_conflict a k it bid ow hobj hb hd hc,
    upsert_false_cases,
    fun a k it ow b out hna h => upsert_nonarray_preserves a k it ow b out hna h⟩

/-- C5 witness: the two rejecting cases and the non-array case evaluated
on concrete inputs through the amended theorem. -/
theorem C5_upsert_false_exactly_two_cases_witness :
    upsertItem (.varr []) (.vnum 1) (.vstr "x") false = .ok (false, .varr []) ∧
    upsertItem (.varr []) (.vnum 1) (.vobj [("__bID", .vnum 2)]) false =
      .ok (false, .varr []) ∧
    (upsertItem (.vnum 7) (.vnum 1) (.vobj []) false = .ok (true, .vnum 7) →
      (.vnum 7 : JSVal) = .vnum 7) := by
  refine ⟨?_, ?_, ?_⟩
  · exact C5_upsert_false_exactly_two_cases.1 (.varr []) (.vnum 1)
      (.vstr "x") false (by simp [typeOf])
  · exact C5_upsert_false_exactly_two_cases.2.1 (.varr []) (.vnum 1)
      (.vobj [("__bID", .vnum 2)]) (.vnum 2) false (by simp [typeOf])
      (by rfl) (by simp [typeOf]) (by rfl)
  · intro h
    exact C5_upsert_false_exactly_two_cases.2.2.2 (.vnum 7) (.vnum 1)
      (.vobj []) false true (.vnum 7) (by simp [isArray]) h

/-
C6 — a stateChange made inside a listener callback is swallowed.
-/

/-- A dirty store being flushed whose single listener issues a stateChange
from inside its callback. -/
def c6Store : StoreState :=
  { state := .vobj [("x", .vnum 1)]
    nextSt := .vobj [("x", .vnum 2)]
    dirtyState := true
    pendingActions := ["setX"]
    listeners := [⟨1, [.change "fromListener" (.vobj [("x", .vnum 3)])]⟩]
    queueCalls := 1 }

/-- C6 counterexample: the re-entrant stateChange does not start a fresh
draft cycle — no new flush is enqueued (queueCalls stays 1), the dirty
flag ends false, and the draft the listener set is left pending. -/
theorem C6_counterexample :
    (flush c6Store).queueCalls = 1 ∧
    (flush c6Store).dirtyState = false ∧
    (flush c6Store).nextSt = .vobj [("x", .vnum 3)] ∧
    (flush c6Store).pendingActions = ["setX", "fromListener"] := by
  exact ⟨rfl, rfl, rfl, rfl⟩

/-- C6 (amended): during notification the store is still marked dirty, so
a stateChange issued from inside a listener callback records its action
and draft but does not re-enqueue a flush with Store Manager; when the
notification completes the dirty flag is cleared regardless, leaving any
such draft pending without a scheduled flush. -/
theorem C6_reentrant_change_not_enqueued (st : StoreState)
    (h : st.dirtyState = true) :
    (flush st).queueCalls = st.queueCalls ∧
    (flush st).dirtyState = false := by
  cases hd : st.debug with
  | false =>
      rw [flush_eq_notify_no_debug st hd]
      obtain ⟨h1, h2⟩ := notify_during_dirty (shallowCopy st.state)
        { st with state := st.nextSt, nextSt := .vnull } (by simpa using h)
      exact ⟨h2, h1⟩
  | true =>
      rw [flush_eq_notify_debug st hd]
      obtain ⟨h1, h2⟩ := notify_during_dirty (shallowCopy st.state)
        { st with
          state := st.nextSt
          nextSt := .vnull
          stateHistory := st.stateHistory ++
            [(String.intercalate "," st.pendingActions,
              shallowCopy st.state)] } (by simpa using h)
      exact ⟨h2, h1⟩

/-- C6 witness: the amended theorem applied to the concrete re-entrant
store. -/
theorem C6_reentrant_change_not_enqueued_witness :
    (flush c6Store).queueCalls = c6Store.queueCalls ∧
    (flush c6Store).dirtyState = false :=
  C6_reentrant_change_not_enqueued c6Store rfl

/-
C7 — listen/ignore: handles are positional, not stable.
-/

/-- indexOf misses every list whose elements all differ from the callback
identity. -/
theorem jsIndexOf_absent : ∀ (ls : List Listener) (c : Listener),
    (∀ x ∈ ls, x.id ≠ c.id) → jsIndexOf ls c = -1 := by
  intro ls
  induction ls with
  | nil => intro c _; rfl
  | cons y ys ih =>
      intro c h
      rw [jsIndexOf, if_neg (h y (by simp)),
        ih c (fun x hx => h x (by simp [hx]))]
      rfl

/-- indexOf finds the first element with the callback identity. -/
theorem jsIndexOf_found : ∀ (pre : List Listener) (l : Listener)
    (post : List Listener) (c : Listener),
    (∀ x ∈ pre, x.id ≠ c.id) → l.id = c.id →
    jsIndexOf (pre ++ l :: post) c = pre.length := by
  intro pre
  induction pre with
  | nil =>
      intro l post c _ hl
      simp [jsIndexOf, hl]
  | cons y ys ih =>
      intro l post c hp hl
      have hy : y.id ≠ c.id := hp y (by simp)
      rw [List.cons_append, jsIndexOf, if_neg hy, ih l post c
        (fun x hx => hp x (by simp [hx])) hl]
      rw [if_neg (by omega)]
      simp [List.length_cons]

/-- Splicing at the index of the found element removes exactly it. -/
theorem spliceOne_at (pre : List Listener) (l : Listener)
    (post : List Listener) :
    spliceOne (pre ++ l :: post) pre.length = pre ++ post := by
  unfold spliceOne
  rw [List.take_left]
  rw [show pre ++ l :: post = (pre ++ [l]) ++ post by simp]
  rw [List.drop_left' (by simp)]

/-- Splicing past the end removes nothing. -/
theorem spliceOne_past (ls : List Listener) (i : Nat)
    (h : ls.length ≤ i) : spliceOne ls i = ls := by
  unfold spliceOne
  rw [List.take_of_length_le h, List.drop_eq_nil_of_le (by omega)]
  simp

/-- A fresh store, listened to twice. -/
def c7Reg :=
  listen ⟨2, []⟩ (listen ⟨1, []⟩ ({} : StoreState)).2

/-- The store after the first handle was passed to ignore. -/
def c7AfterFirst := ignore (.handle ((listen ⟨1, []⟩ ({} : StoreState)).1 : Int)) c7Reg.2

/-- Passing the second listen handle to ignore after the first listener
was removed. -/
def c7Stale := ignore (.handle (c7Reg.1 : Int)) c7AfterFirst.2

/-- C7 counterexample: handles are positional.  After registering two
callbacks (handles 1 and 2) and removing the first by handle, passing the
second handle to ignore returns true yet removes nothing — the second
callback is still registered, so the handle did not remove the callback
its listen call registered, and the true return does not mean a removal
occurred. -/
theorem C7_counterexample :
    c7AfterFirst.1 = true ∧
    c7AfterFirst.2.listeners = [⟨2, []⟩] ∧
    c7Stale.1 = true ∧
    c7Stale.2.listeners = [⟨2, []⟩] := by
  exact ⟨rfl, rfl, rfl, rfl⟩

/-- C7 (amended): listen appends the callback and returns the one-based
position as the handle; the handle is positional rather than stable:
ignore with a handle of at least 1 always returns true and splices
whatever listener currently occupies that position (removing nothing when
the position is past the end), so earlier removals shift which callback a
handle names; ignore with a handle below 1 returns false; ignore with a
callback removes the first identical listener and returns true, or
returns false when the callback was never registered. -/
theorem C7_handles_are_positional :
    (∀ (cb : Listener) (st : StoreState),
      listen cb st = (st.listeners.length + 1,
        { st with listeners := st.listeners ++ [cb] })) ∧
    (∀ (n : Int) (st : StoreState), 1 ≤ n →
      ignore (.handle n) st = (true,
        { st with listeners := spliceOne st.listeners (n - 1).toNat })) ∧
    (∀ (n : Int) (st : StoreState), n ≤ 0 →
      ignore (.handle n) st = (false, st)) ∧
    (∀ (n : Int) (st : StoreState), 1 ≤ n →
      st.listeners.length ≤ (n - 1).toNat →
      ignore (.handle n) st = (true, st)) ∧
    (∀ (c : Listener) (st : StoreState),
      (∀ x ∈ st.listeners, x.id ≠ c.id) →
      ignore (.cb c) st = (false, st)) ∧
    (∀ (c : Listener) (pre post : List Listener) (st : StoreState),
      st.listeners = pre ++ c :: post → (∀ x ∈ pre, x.id ≠ c.id) →
      ignore (.cb c) st = (true, { st with listeners := pre ++ post })) := by
  refine ⟨fun cb st => rfl, ?_, ?_, ?_, ?_, ?_⟩
  · intro n st hn
    simp only [ignore]
    rw [if_pos (by omega)]
  · intro n st hn
    simp only [ignore]
    rw [if_neg (by omega)]
  · intro n st hn hlen
    simp only [ignore]
    rw [if_pos (by omega), spliceOne_past st.listeners (n - 1).toNat hlen]
  · intro c st habs
    simp only [ignore]
    rw [jsIndexOf_absent st.listeners c habs]
    rfl
  · intro c pre post st heq hpre
    simp only [ignore, heq]
    rw [jsIndexOf_found pre c post c hpre rfl]
    rw [if_pos (by omega)]
    rw [show ((pre.length : Int)).toNat = pre.length by simp]
    rw [spliceOne_at pre c post]

/-- C7 witness: the amended theorem replayed on the two-listener store,
showing the stale second handle returning true while removing nothing, a
below-range handle returning false, removal by callback identity, and a
miss for an unregistered callback. -/
theorem C7_handles_are_positional_witness :
    ignore (.handle (2 : Int))
      ({ listeners := [⟨2, []⟩] } : StoreState) =
      (true, { listeners := [⟨2, []⟩] }) ∧
    ignore (.handle (0 : Int))
      ({ listeners := [⟨2, []⟩] } : StoreState) =
      (false, { listeners := [⟨2, []⟩] }) ∧
    ignore (.cb ⟨2, []⟩) ({ listeners := [⟨2, []⟩] } : StoreState) =
      (true, { listeners := [] }) ∧
    ignore (.cb ⟨9, []⟩) ({ listeners := [⟨2, []⟩] } : StoreState) =
      (false, { listeners := [⟨2, []⟩] }) := by
  refine ⟨?_, ?_, ?_, ?_⟩
  · exact C7_handles_are_positional.2.2.2.1 2
      { listeners := [⟨2, []⟩] } (by omega) (by simp)
  · exact C7_handles_are_positional.2.2.1 0
      { listeners := [⟨2, []⟩] } (by omega)
  · have h := C7_handles_are_positional.2.2.2.2.2 ⟨2, []⟩ [] []
      { listeners := [⟨2, []⟩] } (by simp) (by simp)
    simpa using h
  · exact C7_handles_are_positional.2.2.2.2.1 ⟨9, []⟩
      { listeners := [⟨2, []⟩] } (by simp)

/-
C8 — sanitizeInteger: alphabetic strip, range errors, NaN sentinel.
-/

/-- C8: sanitizeInteger strips alphabetic characters from string input
before coercion — so "12abc" yields 12 and "abc" yields the empty-string
sentinel rather than a number — and a coerced value below min or above
max fails with the corresponding range error, so 5 against max 3
throws. -/
theorem C8_sanitizeInteger_behavior :
    (∀ (n m : Int) (cfg : NumConfig), cfg.min = some m → n < m →
      sanitizeInteger (.vnum n) cfg =
        .error (.thrown "Provided value cannot be sanitized, value is below minimum integer allowed")) ∧
    (∀ (n m : Int) (cfg : NumConfig), belowBound (some n) cfg.min = false →
      cfg.max = some m → m < n →
      sanitizeInteger (.vnum n) cfg =
        .error (.thrown "Provided value cannot be sanitized, value is greater than maximum integer allowed")) ∧
    sanitizeInteger (.vstr "12abc") {} = .ok (.vnum 12) ∧
    sanitizeInteger (.vstr "abc") {} = .ok (.vstr "") ∧
    sanitizeInteger (.vnum 5) { max := some 3 } =
      .error (.thrown "Provided value cannot be sanitized, value is greater than maximum integer allowed") := by
  refine ⟨?_, ?_, by rfl, by rfl, by rfl⟩
  · intro n m cfg hm hlt
    simp [sanitizeInteger, sanitizeIntegerNum, parseIntJS, belowBound, hm,
      hlt]
  · intro n m cfg hbelow hm hgt
    simp [sanitizeInteger, sanitizeIntegerNum, parseIntJS, aboveBound, hm,
      hgt, hbelow]

/-- C8 witness: both range failures produced through the theorem at
concrete inputs. -/
theorem C8_sanitizeInteger_behavior_witness :
    sanitizeInteger (.vnum 1) ({ min := some 5 } : NumConfig) =
      .error (.thrown "Provided value cannot be sanitized, value is below minimum integer allowed") ∧
    sanitizeInteger (.vnum 9) ({ max := some 3 } : NumConfig) =
      .error (.thrown "Provided value cannot be sanitized, value is greater than maximum integer allowed") := by
  constructor
  · exact C8_sanitizeInteger_behavior.1 1 5 { min := some 5 } rfl (by omega)
  · exact C8_sanitizeInteger_behavior.2.1 9 3 { max := some 3 } (by rfl) rfl
      (by omega)

/-
C9 — nextState idempotence and temporal-aware cloning.
-/

mutual
/-- The clone of any modelled value is deeply equal to the original: the
customizer copies temporal values by value and the structural walk copies
everything else. -/
theorem cloneVal_id : ∀ v, cloneVal v = v
  | .vundefined => rfl
  | .vnull => rfl
  | .vbool _ => rfl
  | .vnum _ => rfl
  | .vnan => rfl
  | .vstr _ => rfl
  | .varr es => congrArg JSVal.varr (cloneList_id es)
  | .vobj fs => congrArg JSVal.vobj (cloneFields_id fs)
  | .vdate _ => rfl
  | .vmoment _ => rfl
  | .vfunc _ => rfl

/-- Element lists clone to themselves. -/
theorem cloneList_id : ∀ l, cloneList l = l
  | [] => rfl
  | v :: vs => by rw [cloneList, cloneVal_id v, cloneList_id vs]

/-- Field lists clone to themselves. -/
theorem cloneFields_id : ∀ l, cloneFields l = l
  | [] => rfl
  | (k, v) :: fs => by rw [cloneFields, cloneVal_id v, cloneFields_id fs]
end

/-- C9: nextState is idempotent between flushes — when a truthy draft
exists it is returned unchanged, the first call after a flush (draft null)
deep-clones the committed state and stores it, and calling nextState again
returns the very same draft with the store unchanged; the clone is deeply
equal to the original and maps each temporal value to a value of the same
temporal type carrying the same timestamp. -/
theorem C9_nextState_idempotent :
    (∀ st : StoreState, truthy st.nextSt = true →
      nextState st = (st.nextSt, st)) ∧
    (∀ st : StoreState, st.nextSt = .vnull →
      nextState st =
        (cloneVal st.state, { st with nextSt := cloneVal st.state })) ∧
    (∀ st : StoreState, truthy (nextState st).1 = true →
      nextState (nextState st).2 = nextState st) ∧
    (∀ v : JSVal, cloneVal v = v) ∧
    (∀ t : Int, cloneVal (.vmoment t) = .vmoment t ∧
      cloneVal (.vdate t) = .vdate t) := by
  refine ⟨?_, ?_, ?_, cloneVal_id, fun t => ⟨rfl, rfl⟩⟩
  · intro st h
    simp [nextState, h]
  · intro st h
    simp [nextState, cloneState, h, truthy]
  · intro st h
    by_cases ht : truthy st.nextSt
    · simp [nextState, ht]
    · have e : nextState st =
          (cloneState st, { st with nextSt := cloneState st }) := by
        simp [nextState, ht]
      rw [e] at h ⊢
      simp only [] at h
      simp [nextState, h]

/-- C9 witness: a store with a committed object state and no draft; the
second nextState call returns the same draft and store as the first, and
a moment value clones to an equal moment. -/
theorem C9_nextState_idempotent_witness :
    nextState (nextState { state := .vobj [("x", .vnum 1)] }).2 =
      nextState ({ state := .vobj [("x", .vnum 1)] } : StoreState) ∧
    cloneVal (.vmoment 99) = .vmoment 99 := by
  constructor
  · exact C9_nextState_idempotent.2.2.1
      { state := .vobj [("x", .vnum 1)] } (by rfl)
  · exact (C9_nextState_idempotent.2.2.2.2 99).1

/-
C10 — sanitize produces exactly the schema's fields.
-/

/-- The clean object built by the sanitize loop carries one entry per
schema field, in schema order. -/
theorem sanitizeFields_keys : ∀ (schema : List (String × SField))
    (obj : JSVal) (json : Bool) (out : List (String × JSVal)),
    sanitizeFields obj json schema = .ok out →
    out.map Prod.fst = schema.map Prod.fst := by
  intro schema
  induction schema with
  | nil =>
      intro obj json out h
      simp [sanitizeFields] at h
      simp [← h]
  | cons hd rest ih =>
      intro obj json out h
      obtain ⟨f, fs⟩ := hd
      rw [sanitizeFields] at h
      cases h1 : sanitizeField f fs json obj with
      | error e => rw [h1] at h; simp [bind, Except.bind] at h
      | ok v =>
          rw [h1] at h
          cases h2 : sanitizeFields obj json rest with
          | error e => rw [h2] at h; simp [bind, Except.bind] at h
          | ok rc =>
              rw [h2] at h
              simp [bind, Except.bind] at h
              simp [← h, ih obj json rc h2]

/-- C10: when sanitize succeeds, its result contains exactly the fields
named in the schema — every schema field appears (in schema order), and
any input field absent from the schema is dropped. -/
theorem C10_sanitize_exact_schema_fields (obj : JSVal)
    (schema : List (String × SField)) (json : Bool) (out : JSVal)
    (h : sanitize obj schema json = .ok out) :
    objKeys out = schema.map Prod.fst ∧
    (∀ k, k ∉ schema.map Prod.fst → k ∉ objKeys out) := by
  unfold sanitize at h
  simp only [bind, Except.bind] at h
  cases hf : sanitizeFields obj json schema with
  | error e => rw [hf] at h; simp at h
  | ok cleaned =>
      rw [hf] at h
      simp at h
      have hk : objKeys out = cleaned.map Prod.fst := by
        rw [← h]; rfl
      have := sanitizeFields_keys schema obj json cleaned hf
      refine ⟨hk.trans this, fun k hk2 hmem => ?_⟩
      rw [hk.trans this] at hmem
      exact hk2 hmem

/-- A two-field schema: an int field with a zero default and a string
field with an empty default, as the int() and string() builders create. -/
def c10Schema : List (String × SField) :=
  [("a", .mk "int" true (.vnum 0) .vnull none none none none .undef none
      none none "" none),
   ("b", .mk "string" true (.vstr "") .vnull none none none none .undef
      none none none "" none)]

/-- An input supplying field a and an extra field the schema does not
name. -/
def c10Obj : JSVal := .vobj [("a", .vnum 3), ("junk", .vnum 9)]

/-- C10 witness: sanitizing the concrete input keeps exactly a and b and
drops the junk field, through the theorem. -/
theorem C10_sanitize_exact_schema_fields_witness :
    objKeys (.vobj [("a", .vnum 3), ("b", .vstr "")]) = ["a", "b"] ∧
    "junk" ∉ objKeys (JSVal.vobj [("a", .vnum 3), ("b", .vstr "")]) := by
  have hs : sanitize c10Obj c10Schema false =
      .ok (.vobj [("a", .vnum 3), ("b", .vstr "")]) := by
    simp [sanitize, c10Schema, c10Obj, sanitizeFields, sanitizeField,
      bind, Except.bind, objGet, List.lookup, typeOf, isNull,
      sanitizeInteger, sanitizeIntegerNum, parseIntJS, belowBound,
      aboveBound, sanitizeString, jsToString, lenBelow, lenAbove]
  obtain ⟨h1, h2⟩ := C10_sanitize_exact_schema_fields c10Obj c10Schema
    false (.vobj [("a", .vnum 3), ("b", .vstr "")]) hs
  refine ⟨by simpa [c10Schema] using h1, ?_⟩
  exact h2 "junk" (by simp [c10Schema])

end BeefStore
